/-
Verification of `relpos.cpp` (GWAC relative-position tool): a shallow
embedding of its core functions, and theorems settling a list of claims
about them.

Conventions of the embedding:
 - C `double` angles and the trigonometric library are modelled over `ℝ`,
   with the program's literal truncated constants (`D2R`, `R2D`, `PI360`)
   kept as the exact rationals written in the source.
 - Time-of-day values (`secs`) are exact in the data that matters to the
   matcher (multiples of 0.01 s), so they are modelled over `ℚ` to keep
   the matcher executable.
 - The C library function `atan2` is modelled with its documented branch
   structure (range `(-π, π]`); signed zeros are not modelled, `x = 0` is
   treated as `+0`, which is the only case the program exercises.
 - I/O, line parsing and filename decoding are out of scope; `mainRun`
   models the control flow of `main` after the two files have been parsed
   into point lists.
-/
import Mathlib

open Real

/-- Model of the C library `atan2(y, x)`: branch structure from the C
standard, range `(-π, π]`. -/
noncomputable def atan2 (y x : ℝ) : ℝ :=
  if 0 < x then Real.arctan (y / x)
  else if x < 0 then
    (if 0 ≤ y then Real.arctan (y / x) + π else Real.arctan (y / x) - π)
  else (if 0 < y then π / 2 else if y < 0 then -(π / 2) else 0)

/-- `#define D2R 0.017453292519943` from relpos.cpp line 44. -/
def D2R : ℝ := 0.017453292519943

/-- `#define R2D 57.295779513082323` from relpos.cpp line 45. -/
def R2D : ℝ := 57.295779513082323

/-- `#define PI360 6.283185307179586` from relpos.cpp line 43. -/
def PI360 : ℝ := 6.283185307179586

/-- `Sphere2Cart` (relpos.cpp lines 48-53): spherical to Cartesian. -/
noncomputable def Sphere2Cart (r alpha beta : ℝ) : ℝ × ℝ × ℝ :=
  (r * Real.cos beta * Real.cos alpha,
   r * Real.cos beta * Real.sin alpha,
   r * Real.sin beta)

/-- `Cart2Sphere` (relpos.cpp lines 55-60): Cartesian to spherical; the
longitude is wrapped into `[0, PI360)` by adding `PI360` when the
`atan2` value is negative. -/
noncomputable def Cart2Sphere (x y z : ℝ) : ℝ × ℝ × ℝ :=
  (Real.sqrt (x * x + y * y + z * z),
   (let a := atan2 y x; if a < 0 then a + PI360 else a),
   atan2 z (Real.sqrt (x * x + y * y)))

/-- `RotateForward` (relpos.cpp lines 62-80): re-express the point
`(alpha, beta)` (unit radius) in the frame whose pole is
`(alpha0, beta0)`; returns the new `(alpha, beta)`. -/
noncomputable def RotateForward (alpha0 beta0 alpha beta : ℝ) : ℝ × ℝ :=
  let p := Sphere2Cart 1 alpha beta
  let x1 := p.1
  let y1 := p.2.1
  let z1 := p.2.2
  let x2 := Real.sin beta0 * Real.cos alpha0 * x1 +
            Real.sin beta0 * Real.sin alpha0 * y1 - Real.cos beta0 * z1
  let y2 := -Real.sin alpha0 * x1 + Real.cos alpha0 * y1
  let z2 := Real.cos beta0 * Real.cos alpha0 * x1 +
            Real.cos beta0 * Real.sin alpha0 * y1 + Real.sin beta0 * z1
  let q := Cart2Sphere x2 y2 z2
  (q.2.1, q.2.2)

/-- `PointRaw` (relpos.cpp lines 83-104). `hh/mm/ss` are carried only
through `secs = (hh*60+mm)*60 + ss*0.01` (line 279) and the output file
name, so only `secs` is kept; `secs` is an exact multiple of 0.01 s and
is modelled over `ℚ`. -/
structure PointRaw where
  ra : ℝ
  dc : ℝ
  ymd : ℤ
  secs : ℚ
  fname : String
deriving Inhabited

/-- `PointCross` (relpos.cpp lines 117-150). -/
structure PointCross where
  ra : ℝ
  dc : ℝ
  fname : String
  ra0 : ℝ
  dc0 : ℝ
  fname0 : String
  rot : ℝ
  tilt : ℝ
deriving Inhabited

/-- `PointCross::SetPoint` (relpos.cpp lines 129-133). -/
def PointCross.SetPoint (pc : PointCross) (pt : PointRaw) : PointCross :=
  { pc with ra := pt.ra, dc := pt.dc, fname := pt.fname }

/-- `PointCross::SetPointRef` (relpos.cpp lines 139-149): stores the
reference point and computes rotation and tilt; the tilt reported is
`90 - latitude_deg`. -/
noncomputable def PointCross.SetPointRef (pc : PointCross) (pt : PointRaw) :
    PointCross :=
  let rt := RotateForward (pt.ra * D2R) (pt.dc * D2R) (pc.ra * D2R) (pc.dc * D2R)
  { pc with ra0 := pt.ra, dc0 := pt.dc, fname0 := pt.fname,
            rot := rt.1 * R2D, tilt := 90 - rt.2 * R2D }

/-- The `SetPoint` + `SetPointRef` sequence done for each matched pair in
`ScanData` (relpos.cpp lines 369-371). -/
noncomputable def mkCross (pt ref : PointRaw) : PointCross :=
  (PointCross.SetPoint default pt).SetPointRef ref

/-- The scan loop of `FindMatchedData` (relpos.cpp lines 343-348),
recursion on the remaining length `rem = n - i`: starting from best
index `cur` (whose distance is `|s - f cur|`, the running `dt0`),
advance to `i` while the distance does not strictly increase, stop
(keeping `cur`) as soon as it does. -/
def findLoopAux (f : ℕ → ℚ) (s : ℚ) : ℕ → ℕ → ℕ → ℕ
  | _, cur, 0 => cur
  | i, cur, rem + 1 =>
    if |s - f i| > |s - f cur| then cur
    else findLoopAux f s (i + 1) i rem

/-- The loop of `FindMatchedData` with the C loop bound `i < n` expressed
through the fuel `n - i`. -/
def findLoop (f : ℕ → ℚ) (s : ℚ) (n cur i : ℕ) : ℕ :=
  findLoopAux f s i cur (n - i)

/-- `FindMatchedData` (relpos.cpp lines 337-351): nearest-in-time FFoV
index for JFoV time `s`, scanning forward from `frm`; `-1` when the
nearest gap exceeds 10 seconds. `f i` is the `secs` of FFoV sample `i`,
`n` the FFoV length. -/
def FindMatchedData (f : ℕ → ℚ) (s : ℚ) (frm n : ℕ) : ℤ :=
  let r := findLoop f s n frm (frm + 1)
  if |s - f r| > 10 then -1 else (r : ℤ)

/-- The matching skeleton of `ScanData` (relpos.cpp lines 364-374): for
each JFoV sample in order, find the matched FFoV index from the cursor
`j`; on a match emit the (sample, index) pair and move the cursor to the
matched index. -/
def ScanPairs (f : ℕ → ℚ) (n : ℕ) : List PointRaw → ℕ → List (PointRaw × ℕ)
  | [], _ => []
  | p :: rest, j =>
    let k := FindMatchedData f p.secs j n
    if 0 ≤ k then (p, k.toNat) :: ScanPairs f n rest k.toNat
    else ScanPairs f n rest j

/-- `ScanData` (relpos.cpp lines 356-377) as a function of the two parsed
point lists: the emitted `PointCross` results, built from each matched
(JFoV sample, FFoV sample) pair by `SetPoint` / `SetPointRef`. -/
noncomputable def ScanData (jfov ffov : List PointRaw) : List PointCross :=
  (ScanPairs (fun i => (ffov.getD i default).secs) ffov.length jfov 0).map
    (fun pk => mkCross pk.1 (ffov.getD pk.2 default))

/-- `TimeCheck` (relpos.cpp lines 304-309): every sample's date equals
the first sample's date. -/
def TimeCheck (l : List PointRaw) : Bool :=
  match l with
  | [] => true
  | p :: rest => rest.all (fun q => q.ymd == p.ymd)

/-- `TimeCrossCheck` (relpos.cpp lines 321-323): the two series share the
first sample's calendar date. -/
def TimeCrossCheck (jfov ffov : List PointRaw) : Bool :=
  (ffov.headD default).ymd == (jfov.headD default).ymd

/-- The control flow of `main` (relpos.cpp lines 447-503) after parsing:
empty-series checks, then the time-validity gate (line 474), then the
scan; `.error` models an abort with the given diagnostic before any
matching work and with no output file written; `.ok none` models the
zero-match run (no file written), `.ok (some res)` the run whose results
are written to the output file. -/
noncomputable def mainRun (jfov ffov : List PointRaw) :
    Except String (Option (List PointCross)) :=
  if jfov.isEmpty then .error "JFoV data is unavailable"
  else if ffov.isEmpty then .error "FFoV data is unavailable"
  else if !(TimeCheck jfov && TimeCheck ffov && TimeCrossCheck jfov ffov) then
    .error "time range do not match"
  else
    let res := ScanData jfov ffov
    if res.isEmpty then .ok none else .ok (some res)

/-- The residual-rotation wrap in `OutputResult` (relpos.cpp lines
396-400): `drot = rot0 - rot`, then one `±360` correction. -/
noncomputable def residualRot (rot0 rot : ℝ) : ℝ :=
  let drot := rot0 - rot
  if drot > 180 then drot - 360
  else if drot < -180 then drot + 360 else drot

/-- One step of the statistics rotation unwrap in `OutputResult`
(relpos.cpp lines 416-420): `u` is the previous running unwrapped value,
`r` the next raw rotation. -/
noncomputable def unwrapStep (u r : ℝ) : ℝ :=
  if r - u > 180 then r - 360
  else if r - u < -180 then r + 360 else r

/-- The running unwrapped rotations produced from a list of raw
rotations, starting from running value `u`. -/
noncomputable def unwrapFrom (u : ℝ) : List ℝ → List ℝ
  | [] => []
  | r :: rest => let u' := unwrapStep u r; u' :: unwrapFrom u' rest

/-- The unwrapped-rotation sequence of the statistics block
(relpos.cpp lines 412-420): the running value is seeded with the first
raw rotation (line 412) and the loop then visits every element,
including the first again (lines 414-420). -/
noncomputable def unwrapSeq (l : List ℝ) : List ℝ :=
  match l with
  | [] => []
  | r :: _ => unwrapFrom r l

lemma arctan_nonpos_of {t : ℝ} (ht : t ≤ 0) : Real.arctan t ≤ 0 := by
  have h := Real.arctan_strictMono.monotone ht
  simpa using h

lemma arctan_nonneg_of {t : ℝ} (ht : 0 ≤ t) : 0 ≤ Real.arctan t := by
  have h := Real.arctan_strictMono.monotone ht
  simpa using h

lemma arctan_neg_of {t : ℝ} (ht : t < 0) : Real.arctan t < 0 := by
  have h := Real.arctan_strictMono ht
  simpa using h

lemma atan2_le_pi (y x : ℝ) : atan2 y x ≤ π := by
  unfold atan2
  split_ifs with h1 h2 h3 h4 h5
  · exact le_of_lt ((Real.arctan_lt_pi_div_two _).trans
      (half_lt_self Real.pi_pos))
  · have := arctan_nonpos_of (div_nonpos_of_nonneg_of_nonpos h3 h2.le)
    linarith
  · have := Real.arctan_lt_pi_div_two (y / x)
    linarith [Real.pi_pos]
  · linarith [Real.pi_pos]
  · linarith [Real.pi_pos]
  · linarith [Real.pi_pos]

lemma neg_pi_lt_atan2 (y x : ℝ) : -π < atan2 y x := by
  unfold atan2
  split_ifs with h1 h2 h3 h4 h5
  · have := Real.neg_pi_div_two_lt_arctan (y / x)
    linarith [Real.pi_pos]
  · have := Real.neg_pi_div_two_lt_arctan (y / x)
    linarith [Real.pi_pos]
  · have hyx : 0 < y / x := div_pos_of_neg_of_neg (lt_of_not_le h3) h2
    have h0 := Real.arctan_strictMono hyx
    rw [Real.arctan_zero] at h0
    linarith [Real.pi_pos]
  · linarith [Real.pi_pos]
  · linarith [Real.pi_pos]
  · linarith [Real.pi_pos]

lemma atan2_abs_le_pi_div_two {y x : ℝ} (hx : 0 ≤ x) :
    -(π / 2) ≤ atan2 y x ∧ atan2 y x ≤ π / 2 := by
  unfold atan2
  split_ifs with h1 h2 h3 h4 h5
  · exact ⟨(Real.neg_pi_div_two_lt_arctan _).le, (Real.arctan_lt_pi_div_two _).le⟩
  · exact absurd h2 (not_lt.mpr hx)
  · exact absurd h2 (not_lt.mpr hx)
  · exact ⟨by linarith [Real.pi_pos], le_refl _⟩
  · exact ⟨le_refl _, by linarith [Real.pi_pos]⟩
  · constructor <;> linarith [Real.pi_pos]

lemma atan2_const_mul {c : ℝ} (hc : 0 < c) (y x : ℝ) :
    atan2 (c * y) (c * x) = atan2 y x := by
  unfold atan2
  have hx : 0 < c * x ↔ 0 < x := by
    constructor
    · intro h; nlinarith
    · intro h; exact mul_pos hc h
  have hx' : c * x < 0 ↔ x < 0 := by
    constructor
    · intro h; nlinarith
    · intro h; exact mul_neg_of_pos_of_neg hc h
  have hy : 0 ≤ c * y ↔ 0 ≤ y := by
    constructor
    · intro h; nlinarith
    · intro h; exact mul_nonneg hc.le h
  have hy' : 0 < c * y ↔ 0 < y := by
    constructor
    · intro h; nlinarith
    · intro h; exact mul_pos hc h
  have hy'' : c * y < 0 ↔ y < 0 := by
    constructor
    · intro h; nlinarith
    · intro h; exact mul_neg_of_pos_of_neg hc h
  have hdiv : c * y / (c * x) = y / x := mul_div_mul_left y x hc.ne'
  simp only [hx, hx', hy, hy', hy'', hdiv]

lemma atan2_sin_cos {t : ℝ} (h1 : -(π / 2) < t) (h2 : t < π / 2) :
    atan2 (Real.sin t) (Real.cos t) = t := by
  have hc : 0 < Real.cos t := Real.cos_pos_of_mem_Ioo ⟨h1, h2⟩
  unfold atan2
  rw [if_pos hc, ← Real.tan_eq_sin_div_cos, Real.arctan_tan h1 h2]

lemma atan2_sin_cos_Icc {t : ℝ} (h1 : 0 ≤ t) (h2 : t ≤ π) :
    atan2 (Real.sin t) (Real.cos t) = t := by
  rcases lt_trichotomy t (π / 2) with hlt | heq | hgt
  · exact atan2_sin_cos (by linarith [Real.pi_pos]) hlt
  · subst heq
    unfold atan2
    rw [Real.sin_pi_div_two, Real.cos_pi_div_two]
    norm_num
  · rcases eq_or_lt_of_le h2 with heq | hlt
    · subst heq
      unfold atan2
      rw [Real.sin_pi, Real.cos_pi]
      have h3 : ¬ (0 : ℝ) < -1 := by norm_num
      have h4 : (-1 : ℝ) < 0 := by norm_num
      rw [if_neg h3, if_pos h4, if_pos (le_refl (0 : ℝ))]
      have ht : (0 : ℝ) / (-1) = 0 := by norm_num
      rw [ht, Real.arctan_zero, zero_add]
    · have hcneg : Real.cos t < 0 :=
        Real.cos_neg_of_pi_div_two_lt_of_lt hgt (by linarith [Real.pi_pos])
      have hsnn : 0 ≤ Real.sin t := Real.sin_nonneg_of_nonneg_of_le_pi h1 h2
      unfold atan2
      rw [if_neg (not_lt.mpr hcneg.le), if_pos hcneg, if_pos hsnn]
      have htan : Real.sin t / Real.cos t = Real.tan (t - π) := by
        rw [Real.tan_eq_sin_div_cos, Real.sin_sub_pi, Real.cos_sub_pi]
        rw [div_neg, neg_div, neg_neg]
      rw [htan, Real.arctan_tan (by linarith) (by linarith [Real.pi_pos])]
      ring

lemma cart2Sphere_of_pole {x y z : ℝ} (hx : x = 0) (hy : y = 0) (hz : z = 1) :
    ((Cart2Sphere x y z).2.1, (Cart2Sphere x y z).2.2) = (0, π / 2) := by
  subst hx; subst hy; subst hz
  unfold Cart2Sphere atan2
  norm_num

/-- Rotating a point into the frame whose pole is the point itself always
lands exactly on the pole of the new frame: longitude 0 (the `atan2(0,0)=0`
convention), latitude `π/2`. -/
lemma rotateForward_self (a b : ℝ) : RotateForward a b a b = (0, π / 2) := by
  have key : ∀ x y z : ℝ, x = 0 → y = 0 → z = 1 →
      ((Cart2Sphere x y z).2.1, (Cart2Sphere x y z).2.2) = (0, π / 2) :=
    fun x y z hx hy hz => cart2Sphere_of_pole hx hy hz
  simp only [RotateForward, Sphere2Cart]
  refine key _ _ _ ?_ ?_ ?_
  · linear_combination (Real.sin b * Real.cos b) * Real.sin_sq_add_cos_sq a
  · ring
  · linear_combination (Real.cos b ^ 2) * Real.sin_sq_add_cos_sq a +
      Real.sin_sq_add_cos_sq b

lemma cart2Sphere_lon_lat {lon lat : ℝ} (h1 : 0 ≤ lon) (h2 : lon ≤ π)
    (h3 : -(π / 2) < lat) (h4 : lat < π / 2) :
    Cart2Sphere (Real.cos lat * Real.cos lon) (Real.cos lat * Real.sin lon)
      (Real.sin lat) = (1, lon, lat) := by
  have hc : 0 < Real.cos lat := Real.cos_pos_of_mem_Ioo ⟨h3, h4⟩
  have hsum : Real.cos lat * Real.cos lon * (Real.cos lat * Real.cos lon) +
      Real.cos lat * Real.sin lon * (Real.cos lat * Real.sin lon) +
      Real.sin lat * Real.sin lat = 1 := by
    linear_combination (Real.cos lat ^ 2) * Real.sin_sq_add_cos_sq lon +
      Real.sin_sq_add_cos_sq lat
  have hxy : Real.cos lat * Real.cos lon * (Real.cos lat * Real.cos lon) +
      Real.cos lat * Real.sin lon * (Real.cos lat * Real.sin lon) =
      Real.cos lat ^ 2 := by
    linear_combination (Real.cos lat ^ 2) * Real.sin_sq_add_cos_sq lon
  unfold Cart2Sphere
  rw [hsum, hxy, Real.sqrt_one, Real.sqrt_sq_eq_abs, abs_of_pos hc,
    atan2_sin_cos h3 h4]
  simp only [atan2_const_mul hc, atan2_sin_cos_Icc h1 h2,
    if_neg (not_lt.mpr h1)]

/-- With pole `(0, π/2)` — the pole of the original frame — the rotation
of `RotateForward` is the identity on Cartesian coordinates, and the
spherical result reproduces `(lon, lat)` exactly for `lon ∈ [0, π]`,
`lat ∈ (-π/2, π/2)`. -/
lemma rotateForward_id {lon lat : ℝ} (h1 : 0 ≤ lon) (h2 : lon ≤ π)
    (h3 : -(π / 2) < lat) (h4 : lat < π / 2) :
    RotateForward 0 (π / 2) lon lat = (lon, lat) := by
  have hmain := cart2Sphere_lon_lat h1 h2 h3 h4
  simp only [RotateForward, Sphere2Cart, Real.sin_pi_div_two,
    Real.cos_pi_div_two, Real.sin_zero, Real.cos_zero, one_mul, mul_one,
    zero_mul, mul_zero, add_zero, zero_add, neg_zero, sub_zero]
  rw [hmain]

lemma atan2_of_pos {y x : ℝ} (hx : 0 < x) : atan2 y x = Real.arctan (y / x) := by
  unfold atan2; rw [if_pos hx]

lemma R2D_pos : (0 : ℝ) < R2D := by norm_num [R2D]

lemma cart2Sphere_alpha_range (x y z : ℝ) :
    0 ≤ (Cart2Sphere x y z).2.1 ∧ (Cart2Sphere x y z).2.1 * R2D < 360 := by
  have h1 := neg_pi_lt_atan2 y x
  have h2 := atan2_le_pi y x
  show 0 ≤ (if atan2 y x < 0 then atan2 y x + PI360 else atan2 y x) ∧
    (if atan2 y x < 0 then atan2 y x + PI360 else atan2 y x) * R2D < 360
  split_ifs with hneg
  · constructor
    · simp only [PI360]
      linarith [Real.pi_lt_d2]
    · simp only [PI360, R2D]
      linarith
  · constructor
    · linarith
    · simp only [R2D]
      linarith [Real.pi_lt_d20]

lemma cart2Sphere_beta_range (x y z : ℝ) :
    -(π / 2) ≤ (Cart2Sphere x y z).2.2 ∧ (Cart2Sphere x y z).2.2 ≤ π / 2 := by
  show -(π / 2) ≤ atan2 z (Real.sqrt (x * x + y * y)) ∧ _
  exact atan2_abs_le_pi_div_two (Real.sqrt_nonneg _)

lemma rotateForward_ranges (a0 b0 a b : ℝ) :
    (0 ≤ (RotateForward a0 b0 a b).1 ∧ (RotateForward a0 b0 a b).1 * R2D < 360) ∧
    (-(π / 2) ≤ (RotateForward a0 b0 a b).2 ∧ (RotateForward a0 b0 a b).2 ≤ π / 2) :=
  ⟨cart2Sphere_alpha_range _ _ _, cart2Sphere_beta_range _ _ _⟩

/-- C1 (amended): for every result built from a matched pair, the
rotation lies in `[0, 360)`; the tilt, being `90 - latitude_deg`, is a
co-latitude: it lies in `[90 - (π/2)·R2D, 90 + (π/2)·R2D]` — within
`10⁻³` of `[0, 180]` — and not in the claimed `[-90, 90]`. -/
theorem relative_result_rot_and_tilt_range (pt ref : PointRaw) :
    0 ≤ (mkCross pt ref).rot ∧ (mkCross pt ref).rot < 360 ∧
    90 - π / 2 * R2D ≤ (mkCross pt ref).tilt ∧
    (mkCross pt ref).tilt ≤ 90 + π / 2 * R2D ∧
    -(1 / 1000) < (mkCross pt ref).tilt ∧
    (mkCross pt ref).tilt < 180 + 1 / 1000 := by
  obtain ⟨⟨ha1, ha2⟩, hb1, hb2⟩ :=
    rotateForward_ranges (ref.ra * D2R) (ref.dc * D2R) (pt.ra * D2R) (pt.dc * D2R)
  have hrot : (mkCross pt ref).rot =
      (RotateForward (ref.ra * D2R) (ref.dc * D2R) (pt.ra * D2R)
        (pt.dc * D2R)).1 * R2D := rfl
  have htilt : (mkCross pt ref).tilt = 90 -
      (RotateForward (ref.ra * D2R) (ref.dc * D2R) (pt.ra * D2R)
        (pt.dc * D2R)).2 * R2D := rfl
  rw [hrot, htilt]
  have hv1 := mul_le_mul_of_nonneg_right hb2 R2D_pos.le
  have hv2 := mul_le_mul_of_nonneg_right hb1 R2D_pos.le
  have hnum1 : π / 2 * R2D < 90 + 1 / 1000 := by
    simp only [R2D]
    linarith [Real.pi_lt_d20]
  refine ⟨mul_nonneg ha1 R2D_pos.le, ha2, by linarith, by nlinarith, by linarith,
    by nlinarith⟩

lemma rotateForward_equator {t : ℝ} (hs : 0 < Real.sin t) :
    (RotateForward 0 0 t 0).2 = Real.arctan (Real.cos t / Real.sin t) := by
  have hx1 : Real.sqrt (Real.sin t * Real.sin t) = Real.sin t :=
    Real.sqrt_mul_self hs.le
  simp only [RotateForward, Sphere2Cart, Cart2Sphere, Real.sin_zero,
    Real.cos_zero, one_mul, mul_one, zero_mul, mul_zero, add_zero, zero_add,
    neg_zero, sub_zero, sub_self, zero_sub]
  rw [hx1, atan2_of_pos hs]

/-- C1 (counterexample): a JFoV pointing antipodal to the FFoV pointing
(`ra = 180, dc = 0` against `ra = 0, dc = 0`) yields a tilt above 90
degrees, outside the claimed `[-90, 90]`. -/
theorem tilt_exceeds_ninety_for_antipodal_pair :
    ¬ ((mkCross ⟨180, 0, 0, 0, ""⟩ ⟨0, 0, 0, 0, ""⟩).tilt ≤ 90) := by
  have hval : (180 : ℝ) * D2R = 3.14159265358974 := by norm_num [D2R]
  have hlt : (3.14159265358974 : ℝ) < π :=
    lt_trans (by norm_num) Real.pi_gt_d20
  have hs : 0 < Real.sin (180 * D2R) := by
    rw [hval]; exact Real.sin_pos_of_pos_of_lt_pi (by norm_num) hlt
  have hc : Real.cos (180 * D2R) < 0 := by
    rw [hval]
    refine Real.cos_neg_of_pi_div_two_lt_of_lt ?_ ?_
    · linarith [Real.pi_lt_d2]
    · linarith [Real.pi_gt_d2]
  have htilt : (mkCross ⟨180, 0, 0, 0, ""⟩ ⟨0, 0, 0, 0, ""⟩).tilt = 90 -
      (RotateForward (0 * D2R) (0 * D2R) (180 * D2R) (0 * D2R)).2 * R2D := rfl
  have h0 : (0 : ℝ) * D2R = 0 := zero_mul _
  rw [htilt, h0, rotateForward_equator hs]
  have harc : Real.arctan (Real.cos (180 * D2R) / Real.sin (180 * D2R)) < 0 :=
    arctan_neg_of (div_neg_of_neg_of_pos hc hs)
  have := mul_neg_of_neg_of_pos harc R2D_pos
  push_neg
  linarith

/-- C2 (counterexample): matching the JFoV pointing `(ra=10, dc=20)` to
the identical FFoV pointing gives a tilt below 1 degree and more than 80
degrees away from 90 — the claimed "tilt ≈ 90°" is wrong (the identical
point maps to the pole, latitude 90°, and tilt is `90 - latitude`). -/
theorem identical_pair_tilt_far_from_ninety :
    (mkCross ⟨10, 20, 0, 0, ""⟩ ⟨10, 20, 0, 0, ""⟩).tilt < 1 ∧
    80 < |(mkCross ⟨10, 20, 0, 0, ""⟩ ⟨10, 20, 0, 0, ""⟩).tilt - 90| := by
  have htilt : (mkCross ⟨10, 20, 0, 0, ""⟩ ⟨10, 20, 0, 0, ""⟩).tilt = 90 -
      (RotateForward (10 * D2R) (20 * D2R) (10 * D2R) (20 * D2R)).2 * R2D := rfl
  rw [htilt, rotateForward_self (10 * D2R) (20 * D2R)]
  have h1 := Real.pi_gt_d20
  have h2 := Real.pi_lt_d20
  constructor
  · simp only [R2D]
    linarith
  · rw [abs_sub_comm, abs_of_pos]
    · simp only [R2D]
      linarith
    · simp only [R2D]
      linarith

/-- C2 (amended): matching any JFoV pointing to an identical FFoV
pointing lands exactly on the pole of the rotated frame: the computed
rotation is exactly 0 (the `atan2(0,0) = 0` convention) and the tilt is
exactly `90 - (π/2)·R2D`, within `10⁻³` of 0 — not 90. -/
theorem identical_pair_rot_zero_tilt_near_zero (ra dc : ℝ) (y1 y2 : ℤ)
    (s1 s2 : ℚ) (f1 f2 : String) :
    (mkCross ⟨ra, dc, y1, s1, f1⟩ ⟨ra, dc, y2, s2, f2⟩).rot = 0 ∧
    (mkCross ⟨ra, dc, y1, s1, f1⟩ ⟨ra, dc, y2, s2, f2⟩).tilt =
      90 - π / 2 * R2D ∧
    |(mkCross ⟨ra, dc, y1, s1, f1⟩ ⟨ra, dc, y2, s2, f2⟩).tilt| < 1 / 1000 := by
  have hrot : (mkCross ⟨ra, dc, y1, s1, f1⟩ ⟨ra, dc, y2, s2, f2⟩).rot =
      (RotateForward (ra * D2R) (dc * D2R) (ra * D2R) (dc * D2R)).1 * R2D := rfl
  have htilt : (mkCross ⟨ra, dc, y1, s1, f1⟩ ⟨ra, dc, y2, s2, f2⟩).tilt = 90 -
      (RotateForward (ra * D2R) (dc * D2R) (ra * D2R) (dc * D2R)).2 * R2D := rfl
  rw [hrot, htilt, rotateForward_self (ra * D2R) (dc * D2R)]
  refine ⟨by norm_num, rfl, ?_⟩
  rw [abs_lt]
  constructor
  · simp only [R2D]
    linarith [Real.pi_lt_d20]
  · simp only [R2D]
    linarith [Real.pi_gt_d20]

/-- C3 (counterexample): `rotateToFrame` with pole `(0,0)` is not a
no-op: it sends the point `(lon, lat) = (0, 0)` to `(0, π/2)`, whose
latitude differs from the input latitude 0. -/
theorem pole_zero_frame_not_identity :
    RotateForward 0 0 0 0 = (0, π / 2) ∧ (RotateForward 0 0 0 0).2 ≠ 0 := by
  have h := rotateForward_self 0 0
  refine ⟨h, ?_⟩
  rw [h]
  show π / 2 ≠ 0
  positivity

/-- C3 (amended): the no-op frame is the one whose pole is the original
pole `(0, π/2)`, not `(0, 0)`: for `lon ∈ [0, π]` and
`lat ∈ (-π/2, π/2)` the rotation returns `(lon, lat)` exactly (for
`lon ∈ (π, 2π)` exactness is lost only through the truncated `PI360`
constant), and the tilt polarity flip then reports `90 - lat·R2D`. -/
theorem pole_colatitude_frame_identity {lon lat : ℝ} (h1 : 0 ≤ lon)
    (h2 : lon ≤ π) (h3 : -(π / 2) < lat) (h4 : lat < π / 2) :
    RotateForward 0 (π / 2) lon lat = (lon, lat) ∧
    90 - (RotateForward 0 (π / 2) lon lat).2 * R2D = 90 - lat * R2D := by
  have h := rotateForward_id h1 h2 h3 h4
  exact ⟨h, by rw [h]⟩

theorem pole_colatitude_frame_identity_witness :
    (0 : ℝ) ≤ 0 ∧ (0 : ℝ) ≤ π ∧ -(π / 2) < (0 : ℝ) ∧ (0 : ℝ) < π / 2 ∧
    RotateForward 0 (π / 2) 0 0 = (0, 0) := by
  have hp : (0 : ℝ) < π / 2 := by positivity
  have hn : -(π / 2) < (0 : ℝ) := by linarith
  exact ⟨le_refl 0, Real.pi_pos.le, hn, hp,
    (pole_colatitude_frame_identity (le_refl 0) Real.pi_pos.le hn hp).1⟩

/-- C4 (counterexample): reference 0 and computed rotation 180 — both in
`[0, 360)` — give residual exactly `-180`, which is outside the claimed
interval `(-180, 180]`. -/
theorem residual_attains_neg_one_eighty :
    residualRot 0 180 = -180 ∧ ¬ (-180 < residualRot 0 180) := by
  have h : residualRot 0 180 = -180 := by
    simp only [residualRot]
    norm_num
  exact ⟨h, by rw [h]; norm_num⟩

/-- C4 (amended): for reference and computed rotation in `[0, 360)` the
single-step-wrapped residual lies in the closed interval `[-180, 180]`
(the boundary `-180` is attained, e.g. at reference 0 and rotation 180);
reference 0 with computed rotation 350 yields residual `+10`. -/
theorem residual_range_and_example :
    (∀ rot0 rot : ℝ, 0 ≤ rot0 → rot0 < 360 → 0 ≤ rot → rot < 360 →
      -180 ≤ residualRot rot0 rot ∧ residualRot rot0 rot ≤ 180) ∧
    residualRot 0 350 = 10 := by
  constructor
  · intro rot0 rot h1 h2 h3 h4
    simp only [residualRot]
    split_ifs with ha hb
    · constructor <;> linarith
    · constructor <;> linarith
    · constructor <;> linarith
  · simp only [residualRot]
    norm_num

theorem residual_range_and_example_witness :
    (0 : ℝ) ≤ 0 ∧ (0 : ℝ) < 360 ∧ (0 : ℝ) ≤ 90 ∧ (90 : ℝ) < 360 ∧
    -180 ≤ residualRot 0 90 ∧ residualRot 0 90 ≤ 180 := by
  have h := residual_range_and_example.1 0 90 (le_refl 0) (by norm_num)
    (by norm_num) (by norm_num)
  exact ⟨le_refl 0, by norm_num, by norm_num, by norm_num, h.1, h.2⟩

/-- C8 (counterexample): for the raw rotation sequence
`[0, 350, 171, 0, 359]` — every value in `[0, 360)` — the running
unwrapped value drifts down to `-360`, and the next chosen value `-1` is
359 degrees away from it; indeed none of the three candidates
`{359, 359-360, 359+360}` is within 180 degrees of `-360`. -/
theorem unwrap_step_can_exceed_180 :
    unwrapSeq [0, 350, 171, 0, 359] = [0, -10, -189, -360, -1] ∧
    ¬ (|(-1 : ℝ) - (-360)| ≤ 180) ∧ ¬ (|(359 : ℝ) - (-360)| ≤ 180) ∧
    ¬ (|(359 - 360 : ℝ) - (-360)| ≤ 180) ∧
    ¬ (|(359 + 360 : ℝ) - (-360)| ≤ 180) := by
  refine ⟨?_, by norm_num, by norm_num, by norm_num, by norm_num⟩
  norm_num [unwrapSeq, unwrapFrom, unwrapStep]

/-- C8 (amended): the unwrapped sequence is seeded with the first raw
rotation; each chosen value is one of `{r, r-360, r+360}`; and the chosen
value is within 180 degrees of the previous unwrapped value `u` whenever
`u` lies in `[-180, 540]` (true at the seed, which is in `[0, 360)`) —
but, as the counterexample shows, the running value can drift out of that
range, after which no candidate is within 180 degrees. -/
theorem unwrap_seed_and_bounded_step :
    (∀ (r : ℝ) (rest : List ℝ), (unwrapSeq (r :: rest)).head? = some r) ∧
    (∀ u r : ℝ, unwrapStep u r = r ∨ unwrapStep u r = r - 360 ∨
      unwrapStep u r = r + 360) ∧
    (∀ u r : ℝ, 0 ≤ r → r < 360 → -180 ≤ u → u ≤ 540 →
      |unwrapStep u r - u| ≤ 180) := by
  refine ⟨?_, ?_, ?_⟩
  · intro r rest
    have hstep : unwrapStep r r = r := by
      simp only [unwrapStep]
      norm_num
    simp [unwrapSeq, unwrapFrom, hstep]
  · intro u r
    simp only [unwrapStep]
    split_ifs with h1 h2
    · exact Or.inr (Or.inl rfl)
    · exact Or.inr (Or.inr rfl)
    · exact Or.inl rfl
  · intro u r h1 h2 h3 h4
    simp only [unwrapStep]
    split_ifs with ha hb
    · rw [abs_le]
      constructor <;> linarith
    · rw [abs_le]
      constructor <;> linarith
    · rw [abs_le]
      constructor <;> linarith

theorem unwrap_seed_and_bounded_step_witness :
    (0 : ℝ) ≤ 350 ∧ (350 : ℝ) < 360 ∧ (-180 : ℝ) ≤ 0 ∧ (0 : ℝ) ≤ 540 ∧
    |unwrapStep 0 350 - 0| ≤ 180 :=
  ⟨by norm_num, by norm_num, by norm_num, by norm_num,
    unwrap_seed_and_bounded_step.2.2 0 350 (by norm_num) (by norm_num)
      (by norm_num) (by norm_num)⟩

lemma timeCheck_false_of {l : List PointRaw} (p : PointRaw) (hp : p ∈ l)
    (hne : p.ymd ≠ (l.headD default).ymd) : TimeCheck l = false := by
  cases l with
  | nil => cases hp
  | cons q rest =>
    simp only [List.headD_cons] at hne
    rcases List.mem_cons.mp hp with rfl | hp'
    · exact absurd rfl hne
    · simp only [TimeCheck, List.all_eq_false]
      exact ⟨p, hp', by simp [hne]⟩

/-- C9: if either parsed series contains a sample whose calendar date
differs from its first sample's (a multi-day series), or the two series'
first dates differ, the run aborts with the "time range do not match"
diagnostic: no matching is performed and no output is produced. -/
theorem date_mismatch_aborts_run (jfov ffov : List PointRaw)
    (hj : jfov ≠ []) (hf : ffov ≠ [])
    (h : (∃ p ∈ jfov, p.ymd ≠ (jfov.headD default).ymd) ∨
         (∃ p ∈ ffov, p.ymd ≠ (ffov.headD default).ymd) ∨
         (ffov.headD default).ymd ≠ (jfov.headD default).ymd) :
    mainRun jfov ffov = .error "time range do not match" := by
  have hcheck : (TimeCheck jfov && TimeCheck ffov &&
      TimeCrossCheck jfov ffov) = false := by
    rcases h with ⟨p, hp, hne⟩ | ⟨p, hp, hne⟩ | hne
    · simp [timeCheck_false_of p hp hne]
    · simp [timeCheck_false_of p hp hne]
    · have hcc : TimeCrossCheck jfov ffov = false := beq_eq_false_iff_ne.mpr hne
      simp [hcc]
  simp [mainRun, List.isEmpty_iff, hj, hf, hcheck]

theorem date_mismatch_aborts_run_witness :
    ([⟨0, 0, 171027, 0, ""⟩, ⟨0, 0, 171028, 0, ""⟩] : List PointRaw) ≠ [] ∧
    ([⟨0, 0, 171027, 3600, ""⟩] : List PointRaw) ≠ [] ∧
    mainRun [⟨0, 0, 171027, 0, ""⟩, ⟨0, 0, 171028, 0, ""⟩]
      [⟨0, 0, 171027, 3600, ""⟩] = .error "time range do not match" := by
  have hj : ([⟨0, 0, 171027, 0, ""⟩, ⟨0, 0, 171028, 0, ""⟩] :
      List PointRaw) ≠ [] := by simp
  have hf : ([⟨0, 0, 171027, 3600, ""⟩] : List PointRaw) ≠ [] := by simp
  refine ⟨hj, hf, ?_⟩
  refine date_mismatch_aborts_run _ _ hj hf (Or.inl ⟨⟨0, 0, 171028, 0, ""⟩, ?_, ?_⟩)
  · simp
  · simp

lemma findLoopAux_ge (f : ℕ → ℚ) (s : ℚ) :
    ∀ (rem i cur : ℕ), cur < i → cur ≤ findLoopAux f s i cur rem := by
  intro rem
  induction rem with
  | zero => intro i cur _; simp [findLoopAux]
  | succ rem ih =>
    intro i cur h
    simp only [findLoopAux]
    split_ifs with hgt
    · exact le_refl cur
    · exact le_trans h.le (ih (i + 1) i (Nat.lt_succ_self i))

lemma findLoopAux_lt (f : ℕ → ℚ) (s : ℚ) (n : ℕ) :
    ∀ (rem i cur : ℕ), cur < n → rem = n - i →
      findLoopAux f s i cur rem < n := by
  intro rem
  induction rem with
  | zero => intro i cur h _; simpa [findLoopAux] using h
  | succ rem ih =>
    intro i cur hcur hrem
    have hin : i < n := by omega
    simp only [findLoopAux]
    split_ifs with hgt
    · exact hcur
    · exact ih (i + 1) i hin (by omega)

lemma findLoopAux_min (f : ℕ → ℚ) (s : ℚ) (n : ℕ)
    (hmono : ∀ a b : ℕ, a ≤ b → b < n → f a ≤ f b) :
    ∀ (rem cur : ℕ), cur < n → rem = n - (cur + 1) →
      ∀ t, cur ≤ t → t < n →
        |s - f (findLoopAux f s (cur + 1) cur rem)| ≤ |s - f t| := by
  intro rem
  induction rem with
  | zero =>
    intro cur hcur hrem t hct htn
    have ht : t = cur := by omega
    subst ht
    simp [findLoopAux]
  | succ rem ih =>
    intro cur hcur hrem t hct htn
    have hin : cur + 1 < n := by omega
    simp only [findLoopAux]
    split_ifs with hgt
    · rcases eq_or_lt_of_le hct with rfl | hlt
      · exact le_refl _
      · have h1 : cur + 1 ≤ t := hlt
        have hkey : s < f (cur + 1) := by
          by_contra hle
          push_neg at hle
          have hfc : f cur ≤ f (cur + 1) := hmono cur (cur + 1) (Nat.le_succ cur) hin
          have e1 : |s - f (cur + 1)| = s - f (cur + 1) :=
            abs_of_nonneg (by linarith)
          have e2 : s - f cur ≤ |s - f cur| := le_abs_self _
          rw [e1] at hgt
          linarith
        have hft : f (cur + 1) ≤ f t := hmono (cur + 1) t h1 htn
        have e4 : |s - f t| = f t - s := by
          rw [abs_of_nonpos (by linarith)]; ring
        have e5 : |s - f (cur + 1)| = f (cur + 1) - s := by
          rw [abs_of_nonpos (by linarith)]; ring
        have e6 : |s - f cur| ≤ |s - f (cur + 1)| := hgt.le
        linarith
    · have hres := ih (cur + 1) hin (by omega)
      rcases eq_or_lt_of_le hct with rfl | hlt
      · have h1 := hres (cur + 1) (le_refl _) hin
        have h2 : ¬ |s - f cur| < |s - f (cur + 1)| := hgt
        push_neg at h2
        exact h1.trans h2
      · exact hres t hlt htn

lemma findLoop_ge (f : ℕ → ℚ) (s : ℚ) (n frm : ℕ) :
    frm ≤ findLoop f s n frm (frm + 1) :=
  findLoopAux_ge f s _ _ _ (Nat.lt_succ_self frm)

lemma findLoop_lt (f : ℕ → ℚ) (s : ℚ) (n frm : ℕ) (h : frm < n) :
    findLoop f s n frm (frm + 1) < n :=
  findLoopAux_lt f s n _ _ _ h rfl

lemma findLoop_min (f : ℕ → ℚ) (s : ℚ) (n : ℕ)
    (hmono : ∀ a b : ℕ, a ≤ b → b < n → f a ≤ f b) (frm : ℕ) (h : frm < n) :
    ∀ t, frm ≤ t → t < n →
      |s - f (findLoop f s n frm (frm + 1))| ≤ |s - f t| :=
  findLoopAux_min f s n hmono _ frm h rfl

lemma findMatched_eq_of_matched {f : ℕ → ℚ} {s : ℚ} {frm n : ℕ}
    (h : 0 ≤ FindMatchedData f s frm n) :
    FindMatchedData f s frm n = ((findLoop f s n frm (frm + 1) : ℕ) : ℤ) ∧
    ¬ |s - f (findLoop f s n frm (frm + 1))| > 10 := by
  by_cases hgt : |s - f (findLoop f s n frm (frm + 1))| > 10
  · exfalso
    have : FindMatchedData f s frm n = -1 := by
      simp only [FindMatchedData]
      rw [if_pos hgt]
    rw [this] at h
    norm_num at h
  · constructor
    · simp only [FindMatchedData]
      rw [if_neg hgt]
    · exact hgt

lemma scanPairs_snd_ge (f : ℕ → ℚ) (n : ℕ) :
    ∀ (ss : List PointRaw) (j : ℕ), ∀ pk ∈ ScanPairs f n ss j, j ≤ pk.2 := by
  intro ss
  induction ss with
  | nil => intro j pk hpk; simp [ScanPairs] at hpk
  | cons p rest ih =>
    intro j pk hpk
    simp only [ScanPairs] at hpk
    by_cases hk : 0 ≤ FindMatchedData f p.secs j n
    · rw [if_pos hk] at hpk
      obtain ⟨heq, -⟩ := findMatched_eq_of_matched hk
      have htn : (FindMatchedData f p.secs j n).toNat =
          findLoop f p.secs n j (j + 1) := by
        rw [heq, Int.toNat_natCast]
      have hjr : j ≤ (FindMatchedData f p.secs j n).toNat := by
        rw [htn]; exact findLoop_ge f p.secs n j
      rcases List.mem_cons.mp hpk with rfl | hpk'
      · exact hjr
      · exact le_trans hjr (ih _ pk hpk')
    · rw [if_neg hk] at hpk
      exact ih j pk hpk

lemma scanPairs_snd_lt (f : ℕ → ℚ) (n : ℕ) :
    ∀ (ss : List PointRaw) (j : ℕ), j < n →
      ∀ pk ∈ ScanPairs f n ss j, pk.2 < n := by
  intro ss
  induction ss with
  | nil => intro j _ pk hpk; simp [ScanPairs] at hpk
  | cons p rest ih =>
    intro j hj pk hpk
    simp only [ScanPairs] at hpk
    by_cases hk : 0 ≤ FindMatchedData f p.secs j n
    · rw [if_pos hk] at hpk
      obtain ⟨heq, -⟩ := findMatched_eq_of_matched hk
      have htn : (FindMatchedData f p.secs j n).toNat =
          findLoop f p.secs n j (j + 1) := by
        rw [heq, Int.toNat_natCast]
      have hrn : (FindMatchedData f p.secs j n).toNat < n := by
        rw [htn]; exact findLoop_lt f p.secs n j hj
      rcases List.mem_cons.mp hpk with rfl | hpk'
      · exact hrn
      · exact ih _ hrn pk hpk'
    · rw [if_neg hk] at hpk
      exact ih j hj pk hpk

lemma scanPairs_fst_sublist (f : ℕ → ℚ) (n : ℕ) :
    ∀ (ss : List PointRaw) (j : ℕ),
      ((ScanPairs f n ss j).map Prod.fst).Sublist ss := by
  intro ss
  induction ss with
  | nil => intro j; simp [ScanPairs]
  | cons p rest ih =>
    intro j
    simp only [ScanPairs]
    by_cases hk : 0 ≤ FindMatchedData f p.secs j n
    · rw [if_pos hk]
      simp only [List.map_cons]
      exact List.Sublist.cons₂ p (ih _)
    · rw [if_neg hk]
      exact List.Sublist.cons p (ih j)

/-- C6: for all inputs (any FFoV time function, any JFoV list, any start
cursor), the FFoV indices of successively emitted matched pairs are
non-decreasing: once a JFoV sample is matched at index `k`, no later
sample is matched to a smaller index. -/
theorem matched_indices_nondecreasing (f : ℕ → ℚ) (n : ℕ)
    (ss : List PointRaw) (j : ℕ) :
    List.Pairwise (· ≤ ·) ((ScanPairs f n ss j).map Prod.snd) := by
  induction ss generalizing j with
  | nil => simp [ScanPairs]
  | cons p rest ih =>
    simp only [ScanPairs]
    by_cases hk : 0 ≤ FindMatchedData f p.secs j n
    · rw [if_pos hk]
      simp only [List.map_cons]
      refine List.pairwise_cons.mpr ⟨?_, ih _⟩
      intro x hx
      obtain ⟨pk, hpk, rfl⟩ := List.mem_map.mp hx
      exact scanPairs_snd_ge f n rest _ pk hpk
    · rw [if_neg hk]
      exact ih j

/-- C7 (counterexample): with FFoV times `[5, 15]` and JFoV time `10`,
the two consecutive FFoV samples are equidistant (both 5 s away), and
the scan matches index 1 — the later one, not the earlier one the claim
asserts: on a tie the code advances (`if (dt1 > dt0) break` does not
break on equality). -/
theorem equidistant_tie_matches_later :
    |(10 : ℚ) - ([5, 15] : List ℚ).getD 0 0| =
      |(10 : ℚ) - ([5, 15] : List ℚ).getD 1 0| ∧
    FindMatchedData (fun i => ([5, 15] : List ℚ).getD i 0) 10 0 2 = 1 ∧
    (1 : ℤ) ≠ 0 := by
  refine ⟨by norm_num, ?_, by norm_num⟩
  norm_num [FindMatchedData, findLoop, findLoopAux]

/-- C7 (amended): for each JFoV sample the scan advances the cursor one
FFoV sample at a time while the absolute time difference does not
strictly increase, and stops (rolling back one step) as soon as it
strictly increases; in particular, when two consecutive FFoV samples are
equidistant from the JFoV time the scan advances past the tie, matching
the later sample, not the earlier one. -/
theorem scan_advance_stop_rule (f : ℕ → ℚ) (s : ℚ) (n cur : ℕ)
    (h : cur + 1 < n) :
    (|s - f (cur + 1)| > |s - f cur| → findLoop f s n cur (cur + 1) = cur) ∧
    (|s - f (cur + 1)| ≤ |s - f cur| →
      findLoop f s n cur (cur + 1) = findLoop f s n (cur + 1) (cur + 2) ∧
      cur + 1 ≤ findLoop f s n cur (cur + 1)) := by
  have hrem : n - (cur + 1) = (n - (cur + 2)) + 1 := by omega
  constructor
  · intro hgt
    unfold findLoop
    rw [hrem]
    simp only [findLoopAux]
    rw [if_pos hgt]
  · intro hle
    have heq : findLoop f s n cur (cur + 1) = findLoop f s n (cur + 1) (cur + 2) := by
      unfold findLoop
      rw [hrem]
      simp only [findLoopAux]
      rw [if_neg (not_lt.mpr hle)]
    refine ⟨heq, ?_⟩
    rw [heq]
    exact findLoopAux_ge f s _ _ _ (Nat.lt_succ_self (cur + 1))

theorem scan_advance_stop_rule_witness :
    (0 + 1 < 2) ∧
    (|(10 : ℚ) - ([5, 15] : List ℚ).getD (0 + 1) 0| ≤
      |(10 : ℚ) - ([5, 15] : List ℚ).getD 0 0|) ∧
    findLoop (fun i => ([5, 15] : List ℚ).getD i 0) 10 2 0 (0 + 1) =
      findLoop (fun i => ([5, 15] : List ℚ).getD i 0) 10 2 (0 + 1) (0 + 2) ∧
    0 + 1 ≤ findLoop (fun i => ([5, 15] : List ℚ).getD i 0) 10 2 0 (0 + 1) := by
  have h := (scan_advance_stop_rule (fun i => ([5, 15] : List ℚ).getD i 0)
    10 2 0 (by norm_num)).2 (by norm_num)
  exact ⟨by norm_num, by norm_num, h.1, h.2⟩

lemma scanPairs_spec (f : ℕ → ℚ) (n : ℕ)
    (hmono : ∀ a b : ℕ, a ≤ b → b < n → f a ≤ f b) :
    ∀ (ss : List PointRaw) (j : ℕ), j < n →
      List.Pairwise (fun p q : PointRaw => p.secs ≤ q.secs) ss →
      (j = 0 ∨ ∃ s', f j ≤ s' + 10 ∧ ∀ q ∈ ss, s' ≤ q.secs) →
      (∀ pk ∈ ScanPairs f n ss j, pk.2 < n ∧ |pk.1.secs - f pk.2| ≤ 10) ∧
      (∀ p ∈ ss, (∀ k, (p, k) ∉ ScanPairs f n ss j) →
        ∀ i, i < n → 10 < |p.secs - f i|) := by
  intro ss
  induction ss with
  | nil =>
    intro j hj hs hinv
    constructor
    · intro pk hpk; simp [ScanPairs] at hpk
    · intro p hp; simp at hp
  | cons p rest ih =>
    intro j hj hsort hinv
    obtain ⟨hhead, htail⟩ := List.pairwise_cons.mp hsort
    have hge : j ≤ findLoop f p.secs n j (j + 1) := findLoop_ge f p.secs n j
    have hlt : findLoop f p.secs n j (j + 1) < n := findLoop_lt f p.secs n j hj
    have hmin := findLoop_min f p.secs n hmono j hj
    by_cases hgap : |p.secs - f (findLoop f p.secs n j (j + 1))| > 10
    · have hfm : FindMatchedData f p.secs j n = -1 := by
        simp only [FindMatchedData]
        rw [if_pos hgap]
      have hscan : ScanPairs f n (p :: rest) j = ScanPairs f n rest j := by
        simp only [ScanPairs, hfm]
        norm_num
      have hinv' : j = 0 ∨ ∃ s', f j ≤ s' + 10 ∧ ∀ q ∈ rest, s' ≤ q.secs := by
        rcases hinv with h0 | ⟨s', h1, h2⟩
        · exact Or.inl h0
        · exact Or.inr ⟨s', h1, fun q hq => h2 q (List.mem_cons_of_mem p hq)⟩
      obtain ⟨ih1, ih2⟩ := ih j hj htail hinv'
      have hfar : ∀ i, i < n → 10 < |p.secs - f i| := by
        intro i hi
        rcases le_or_lt j i with hji | hij
        · exact lt_of_lt_of_le hgap (hmin i hji hi)
        · rcases hinv with rfl | ⟨s', hs1, hs2⟩
          · omega
          · have hfij : f i ≤ f j := hmono i j hij.le hj
            have hfj : 10 < |p.secs - f j| :=
              lt_of_lt_of_le hgap (hmin j (le_refl j) hj)
            have hsp : s' ≤ p.secs := hs2 p (List.mem_cons_self p rest)
            have hpj : 10 < p.secs - f j := by
              rcases abs_cases (p.secs - f j) with ⟨heq, _⟩ | ⟨heq, _⟩
              · rw [heq] at hfj; exact hfj
              · rw [heq] at hfj; linarith
            have hpi : 10 < p.secs - f i := by linarith
            exact lt_of_lt_of_le hpi (le_abs_self _)
      rw [hscan]
      refine ⟨ih1, ?_⟩
      intro q hq hnot
      rcases List.mem_cons.mp hq with rfl | hq'
      · exact hfar
      · exact ih2 q hq' hnot
    · have hfm : FindMatchedData f p.secs j n =
          ((findLoop f p.secs n j (j + 1) : ℕ) : ℤ) := by
        simp only [FindMatchedData]
        rw [if_neg hgap]
      have hscan : ScanPairs f n (p :: rest) j =
          (p, findLoop f p.secs n j (j + 1)) ::
            ScanPairs f n rest (findLoop f p.secs n j (j + 1)) := by
        simp only [ScanPairs, hfm]
        rw [if_pos (Int.natCast_nonneg _), Int.toNat_natCast]
      have hle10 : |p.secs - f (findLoop f p.secs n j (j + 1))| ≤ 10 :=
        not_lt.mp hgap
      have hinv' : findLoop f p.secs n j (j + 1) = 0 ∨
          ∃ s', f (findLoop f p.secs n j (j + 1)) ≤ s' + 10 ∧
            ∀ q ∈ rest, s' ≤ q.secs := by
        right
        refine ⟨p.secs, ?_, fun q hq => hhead q hq⟩
        have h := abs_le.mp hle10
        linarith [h.1]
      obtain ⟨ih1, ih2⟩ := ih (findLoop f p.secs n j (j + 1)) hlt htail hinv'
      rw [hscan]
      constructor
      · intro pk hpk
        rcases List.mem_cons.mp hpk with rfl | hpk'
        · exact ⟨hlt, hle10⟩
        · exact ih1 pk hpk'
      · intro q hq hnot
        rcases List.mem_cons.mp hq with rfl | hq'
        · exact absurd (List.mem_cons_self _ _) (hnot _)
        · refine ih2 q hq' ?_
          intro k hk
          exact hnot k (List.mem_cons_of_mem _ hk)

/-- C5: for time-sorted series (JFoV list sorted by `secs`, FFoV times
monotone below `n`) the scan started at cursor 0 (i) emits only pairs
whose index is in range and whose time gap is at most 10 s, and (ii)
drops a JFoV sample only when no FFoV sample at all lies within 10 s of
it; moreover the claim's two scenarios hold: JFoV 3661 against FFoV
`[3650, 3665]` is matched to index 1 (time 3665, gap 4 s), and JFoV 3600
against `[3580, 3700]` is dropped (nearest gap 20 s). -/
theorem matched_pairs_gap_bound (f : ℕ → ℚ) (n : ℕ) (ss : List PointRaw)
    (hn : 0 < n) (hmono : ∀ a b : ℕ, a ≤ b → b < n → f a ≤ f b)
    (hsort : List.Pairwise (fun p q : PointRaw => p.secs ≤ q.secs) ss) :
    ((∀ pk ∈ ScanPairs f n ss 0, pk.2 < n ∧ |pk.1.secs - f pk.2| ≤ 10) ∧
     (∀ p ∈ ss, (∀ k, (p, k) ∉ ScanPairs f n ss 0) →
       ∀ i, i < n → 10 < |p.secs - f i|)) ∧
    (ScanPairs (fun i => ([3650, 3665] : List ℚ).getD i 0) 2
      [⟨0, 0, 0, 3661, ""⟩] 0).map Prod.snd = [1] ∧
    (ScanPairs (fun i => ([3580, 3700] : List ℚ).getD i 0) 2
      [⟨0, 0, 0, 3600, ""⟩] 0).map Prod.snd = [] := by
  refine ⟨scanPairs_spec f n hmono ss 0 hn hsort (Or.inl rfl), ?_, ?_⟩
  · norm_num [ScanPairs, FindMatchedData, findLoop, findLoopAux]
  · norm_num [ScanPairs, FindMatchedData, findLoop, findLoopAux]

theorem matched_pairs_gap_bound_witness :
    0 < 2 ∧
    (∀ a b : ℕ, a ≤ b → b < 2 →
      ([3650, 3665] : List ℚ).getD a 0 ≤ ([3650, 3665] : List ℚ).getD b 0) ∧
    List.Pairwise (fun p q : PointRaw => p.secs ≤ q.secs)
      [⟨0, 0, 0, 3661, ""⟩] ∧
    ∀ pk ∈ ScanPairs (fun i => ([3650, 3665] : List ℚ).getD i 0) 2
        [⟨0, 0, 0, 3661, ""⟩] 0,
      pk.2 < 2 ∧
        |pk.1.secs - ([3650, 3665] : List ℚ).getD pk.2 0| ≤ 10 := by
  have hmono : ∀ a b : ℕ, a ≤ b → b < 2 →
      ([3650, 3665] : List ℚ).getD a 0 ≤ ([3650, 3665] : List ℚ).getD b 0 := by
    intro a b hab hb
    interval_cases b
    · interval_cases a
      · norm_num
    · interval_cases a
      · norm_num
      · norm_num
  have hsort : List.Pairwise (fun p q : PointRaw => p.secs ≤ q.secs)
      ([⟨0, 0, 0, 3661, ""⟩] : List PointRaw) := by simp
  exact ⟨by norm_num, hmono, hsort,
    ((matched_pairs_gap_bound (fun i => ([3650, 3665] : List ℚ).getD i 0) 2
      [⟨0, 0, 0, 3661, ""⟩] (by norm_num) hmono hsort).1).1⟩

/-- C10: every emitted result copies the JFoV sample's `ra`, `dc` and
filename and the matched FFoV sample's `ra`, `dc` and filename unchanged
(only `rot` and `tilt` are computed), and the results appear in the same
order as the JFoV samples they came from (their copied fields form a
sublist of the JFoV input). -/
theorem results_copy_inputs_in_order (jfov ffov : List PointRaw)
    (hf : ffov ≠ []) :
    ((ScanData jfov ffov).map (fun c => (c.ra, c.dc, c.fname))).Sublist
      (jfov.map (fun p => (p.ra, p.dc, p.fname))) ∧
    ∀ c ∈ ScanData jfov ffov, ∃ q ∈ ffov,
      c.ra0 = q.ra ∧ c.dc0 = q.dc ∧ c.fname0 = q.fname := by
  constructor
  · have h1 : (ScanData jfov ffov).map (fun c => (c.ra, c.dc, c.fname)) =
        ((ScanPairs (fun i => (ffov.getD i default).secs) ffov.length jfov
          0).map Prod.fst).map (fun p => (p.ra, p.dc, p.fname)) := by
      simp only [ScanData, List.map_map]
      rfl
    rw [h1]
    exact List.Sublist.map _ (scanPairs_fst_sublist _ _ jfov 0)
  · intro c hc
    simp only [ScanData, List.mem_map] at hc
    obtain ⟨pk, hpk, rfl⟩ := hc
    have hlen : 0 < ffov.length := List.length_pos.mpr hf
    have hlt : pk.2 < ffov.length :=
      scanPairs_snd_lt _ ffov.length jfov 0 hlen pk hpk
    refine ⟨ffov.getD pk.2 default, ?_, rfl, rfl, rfl⟩
    rw [List.getD_eq_getElem ffov default hlt]
    exact List.getElem_mem hlt

theorem results_copy_inputs_in_order_witness :
    ([⟨1, 2, 0, 0, "f"⟩] : List PointRaw) ≠ [] ∧
    ((ScanData [⟨3, 4, 0, 0, "g"⟩] [⟨1, 2, 0, 0, "f"⟩]).map
      (fun c => (c.ra, c.dc, c.fname))).Sublist
      (([⟨3, 4, 0, 0, "g"⟩] : List PointRaw).map
        (fun p => (p.ra, p.dc, p.fname))) := by
  have hf : ([⟨1, 2, 0, 0, "f"⟩] : List PointRaw) ≠ [] := by simp
  exact ⟨hf, (results_copy_inputs_in_order [⟨3, 4, 0, 0, "g"⟩]
    [⟨1, 2, 0, 0, "f"⟩] hf).1⟩
